import Mathlib

/-!
Verification of the file-resolution and cataloging core of the
`bluestoneapps` MCP server (repository `zahycs/mcp-remote-server`).

The repository ships two server variants built from the same helpers:

* the stdio variant (`build/index.js`): `findFileInSubdirectories`,
  `getExampleContent`, `findClosestMatch`, `listAvailableExamples`
  (no deduplication, `services` category backed by the `helper` folder);
* the copilot variant (`build/copilot-server.js`): the same helpers with
  extra logging, a deduplicating `listAvailableExamples`, and the
  `services` category backed by the `services` folder.

The filesystem is modelled as a snapshot: a map from directory names
(the per-category roots under `resources/code-examples/react-native/`)
to the list of files found beneath them, in the traversal order that
`glob.sync` would produce (glob v10 does not sort, so the order is an
implementation-defined but fixed parameter of the snapshot, exactly as
the spec requires).

`glob.sync` pattern matching is modelled for the pattern forms the
program actually builds: `<base>/**/<name>` and `<base>/**/*<ext>`.
The segment matcher implements minimatch literals, `*` and `?`, plus
the default dot rules: a final segment starting with `.` is only
matched by a pattern starting with a literal `.`, and `**` does not
descend into directories whose name starts with `.`.  Character
classes and braces are not modelled; every theorem that quantifies
over caller-supplied names either restricts them to metacharacter-free
strings or does not use them inside a pattern.
-/

namespace McpResolver

/-- Tokens of a (single path segment) glob pattern. -/
inductive GTok where
  | lit (c : Char)
  | star
  | qmark
  deriving DecidableEq

/-- Tokenize a segment pattern: `*` and `?` are wildcards, everything else
is literal (the program never builds patterns with classes or braces). -/
def lexGlob (cs : List Char) : List GTok :=
  cs.map fun c => if c = '*' then .star else if c = '?' then .qmark else .lit c

/-- Match a tokenized segment pattern against a segment, `*` matching any
(possibly empty) run of characters and `?` exactly one. -/
def gmatch : List GTok → List Char → Bool
  | [], s => s.isEmpty
  | .lit c :: ps, s =>
    match s with
    | [] => false
    | d :: s' => c == d && gmatch ps s'
  | .qmark :: ps, s =>
    match s with
    | [] => false
    | _ :: s' => gmatch ps s'
  | .star :: ps, s => s.tails.any fun t => gmatch ps t

/-- Minimatch segment matching with the default dot rule: a segment that
starts with `.` is matched only by a pattern that starts with a literal
`.`. -/
def segMatch (pat s : String) : Bool :=
  if s.data.head? = some '.' ∧ pat.data.head? ≠ some '.' then false
  else gmatch (lexGlob pat.data) s.data

/-- One file below a category root: its path segments relative to the
root (last segment is the filename) and its text content. -/
structure Entry where
  segs : List String
  content : String
  deriving DecidableEq

/-- A filesystem snapshot: the directories that exist, each with the
files below it in `glob.sync` traversal order. -/
structure FS where
  dirs : List (String × List Entry)
  deriving DecidableEq

/-- First binding of a directory name in the snapshot. -/
def lookupDir (d : String) : List (String × List Entry) → Option (List Entry)
  | [] => none
  | (k, es) :: rest => if k = d then some es else lookupDir d rest

/-- `fs.existsSync` on a category root. -/
def dirExists (fs : FS) (d : String) : Bool :=
  (lookupDir d fs.dirs).isSome

/-- The files below a category root (empty when the root is missing,
matching `glob.sync` on a nonexistent directory). -/
def entriesOf (fs : FS) (d : String) : List Entry :=
  (lookupDir d fs.dirs).getD []

/-- `path.basename` of an entry's path. -/
def fileNameOf (e : Entry) : String :=
  (e.segs.getLast?).getD ""

/-- The glob `**` dot rule: every intermediate directory segment must not
start with `.`. -/
def visibleDirs (e : Entry) : Bool :=
  e.segs.dropLast.all fun d => !(d.startsWith ".")

/-- Whether an entry is produced by `glob.sync` for the pattern
`<root>/**/<pat>`. -/
def entryMatches (pat : String) (e : Entry) : Bool :=
  !e.segs.isEmpty && visibleDirs e && segMatch pat (fileNameOf e)

/-- `glob.sync(root + "/**/" + pat)` on a snapshot, in traversal order. -/
def globSync (fs : FS) (d : String) (pat : String) : List Entry :=
  (entriesOf fs d).filter (entryMatches pat)

/-- Bool-valued list prefix test over characters. -/
def listPrefixOf : List Char → List Char → Bool
  | [], _ => true
  | _ :: _, [] => false
  | a :: as, b :: bs => a == b && listPrefixOf as bs

/-- Bool-valued list suffix test over characters. -/
def listSuffixOf (a b : List Char) : Bool :=
  listPrefixOf a.reverse b.reverse

/-- Bool-valued contiguous-substring test over characters. -/
def listInfixOf (needle hay : List Char) : Bool :=
  hay.tails.any (listPrefixOf needle)

/-- `path.extname` restricted to a basename: the substring from the last
dot, unless that dot is the leading character or the name is all dots. -/
def extname (s : String) : String :=
  let rev := s.data.reverse
  let extRev := rev.takeWhile fun c => c != '.'
  if rev.all (fun c => c == '.') then ""
  else if extRev.length = rev.length then ""
  else if extRev.length + 1 = rev.length then ""
  else ⟨'.' :: extRev.reverse⟩

/-- `path.basename(name, ext)`: strip `ext` when `name` ends with it and
is not `ext` itself. -/
def stripSuffix (name ext : String) : String :=
  if name ≠ ext ∧ listSuffixOf ext.data name.data then
    ⟨name.data.take (name.data.length - ext.data.length)⟩
  else name

/-- The stem of a filename:
`path.basename(fileName, path.extname(fileName))`. -/
def stemOf (fname : String) : String :=
  stripSuffix fname (extname fname)

/-- Character-wise lowercase (JS `toLowerCase` on the ASCII names this
program handles). -/
def lowerChars (s : String) : List Char :=
  s.data.map Char.toLower

/-- JS `stem.toLowerCase().includes(q.toLowerCase())`. -/
def containsLower (stem q : String) : Bool :=
  listInfixOf (lowerChars q) (lowerChars stem)

/-- The recognized extension list, in its fixed order. -/
def extensions : List String := [".js", ".jsx", ".ts", ".tsx"]

/-- The extension-qualified loop of `findFileInSubdirectories`: for each
extension in order, glob for `fileName + ext` and return the first hit. -/
def findWithExt (fs : FS) (baseDir fileName : String) : List String → Option Entry
  | [] => none
  | ext :: rest =>
    match globSync fs baseDir (fileName ++ ext) with
    | f :: _ => some f
    | [] => findWithExt fs baseDir fileName rest

/-- `findFileInSubdirectories(baseDir, fileName)`: exact glob first, then
the extension-qualified loop. -/
def findFileInSubdirectories (fs : FS) (baseDir fileName : String) : Option Entry :=
  match globSync fs baseDir fileName with
  | f :: _ => some f
  | [] => findWithExt fs baseDir fileName extensions

/-- The `path.relative(BASE_DIR, filePath)` value reported for a match. -/
def relPathOf (subcategory : String) (e : Entry) : String :=
  "resources/code-examples/react-native/" ++ subcategory ++ "/"
    ++ String.intercalate "/" e.segs

/-- Result shape of `getExampleContent`. -/
inductive ExampleResult where
  | ok (content : String) (relPath : String)
  | error (msg : String)
  deriving DecidableEq

/-- `getExampleContent(subcategory, filename)` (stdio variant message). -/
def getExampleContent (fs : FS) (subcategory filename : String) : ExampleResult :=
  match findFileInSubdirectories fs subcategory filename with
  | some e => .ok e.content (relPathOf subcategory e)
  | none => .error ("Example " ++ filename ++ " not found")

/-- Inner loop of `findClosestMatch` over one extension's glob results:
first entry whose lowercased stem contains the lowercased query. -/
def firstStemMatch (q : String) : List Entry → Option String
  | [] => none
  | e :: es =>
    let stem := stemOf (fileNameOf e)
    if containsLower stem q then some stem else firstStemMatch q es

/-- Outer loop of `findClosestMatch`, over extensions in list order. -/
def fuzzyLoop (fs : FS) (directory searchName : String) : List String → Option String
  | [] => none
  | ext :: rest =>
    match firstStemMatch searchName (globSync fs directory ("*" ++ ext)) with
    | some stem => some stem
    | none => fuzzyLoop fs directory searchName rest

/-- `findClosestMatch(directory, searchName)`: nothing when the directory
does not exist, else the first matching stem in extension-then-traversal
order. -/
def findClosestMatch (fs : FS) (directory searchName : String) : Option String :=
  if dirExists fs directory then fuzzyLoop fs directory searchName extensions
  else none

/-- Which branch of a `get_*_example` tool handler produced the reply,
with its payload: `exact` for a direct `getExampleContent` hit, `fuzzy`
for content obtained by re-resolving a `findClosestMatch` stem,
`fuzzyError` for the stdio handler returning the re-resolution error
text, and `notFound` for the `not found` reply carrying the category
directory and the attempted name. -/
inductive ResolveOutcome where
  | exact (content : String)
  | fuzzy (content : String)
  | fuzzyError (msg : String)
  | notFound (category name : String)
  deriving DecidableEq

/-- The stdio variant's `get_*_example` handler body: exact resolution
first; on error, fuzzy match and re-resolve the stem, replying with the
re-resolution's content or error text; `not found` only when no stem
fuzzy-matches. -/
def resolveStdio (fs : FS) (dir name : String) : ResolveOutcome :=
  match getExampleContent fs dir name with
  | .ok c _ => .exact c
  | .error _ =>
    match findClosestMatch fs dir name with
    | some stem =>
      match getExampleContent fs dir stem with
      | .ok c _ => .fuzzy c
      | .error m => .fuzzyError m
    | none => .notFound dir name

/-- The copilot variant's `get_*_example` handler body: as in the stdio
variant, except that a failed re-resolution of the fuzzy stem falls
through to the `not found` reply. -/
def resolveCopilot (fs : FS) (dir name : String) : ResolveOutcome :=
  match getExampleContent fs dir name with
  | .ok c _ => .exact c
  | .error _ =>
    match findClosestMatch fs dir name with
    | some stem =>
      match getExampleContent fs dir stem with
      | .ok c _ => .fuzzy c
      | .error _ => .notFound dir name
    | none => .notFound dir name

/-- Steps 3-4 of the resolution algorithm as one function: the fuzzy
fallback followed by the stem re-resolution (stdio behavior). -/
def fuzzyStage (fs : FS) (dir name : String) : ResolveOutcome :=
  match findClosestMatch fs dir name with
  | some stem =>
    match getExampleContent fs dir stem with
    | .ok c _ => .fuzzy c
    | .error m => .fuzzyError m
  | none => .notFound dir name

/-- stdio `get_component_example` handler. -/
def get_component_example_stdio (fs : FS) (component_name : String) : ResolveOutcome :=
  resolveStdio fs "components" component_name

/-- stdio `get_service_example` handler: reads the `helper` folder. -/
def get_service_example_stdio (fs : FS) (service_name : String) : ResolveOutcome :=
  resolveStdio fs "helper" service_name

/-- copilot `get_service_example` handler: reads the `services` folder. -/
def get_service_example_copilot (fs : FS) (service_name : String) : ResolveOutcome :=
  resolveCopilot fs "services" service_name

/-- One category's item list in the stdio catalog builder: for each
extension in order, every glob hit's stem, appended without any
duplicate guard. -/
def listCat (fs : FS) (dir : String) : List String :=
  if dirExists fs dir then
    extensions.flatMap fun ext =>
      (globSync fs dir ("*" ++ ext)).map fun e => stemOf (fileNameOf e)
  else []

/-- The copilot builder's push: append the stem only when it is not
already present. -/
def pushNew (acc : List String) (x : String) : List String :=
  if acc.contains x then acc else acc ++ [x]

/-- One category's item list in the copilot catalog builder: same
enumeration as `listCat`, but each stem is pushed through the
duplicate guard. -/
def listCatDedup (fs : FS) (dir : String) : List String :=
  if dirExists fs dir then
    (extensions.flatMap fun ext =>
      (globSync fs dir ("*" ++ ext)).map fun e => stemOf (fileNameOf e)).foldl pushNew []
  else []

/-- The `examples` object: exactly the five category keys, in their
declaration order. -/
structure Examples where
  components : List String
  hooks : List String
  services : List String
  screens : List String
  themes : List String
  deriving DecidableEq

/-- The `examples` object as initialized, before any directory walk. -/
def emptyExamples : Examples := ⟨[], [], [], [], []⟩

/-- The stdio variant's category table: `services` is backed by the
`helper` folder and `themes` by the `theme` folder. -/
def categoriesStdio : List (String × String) :=
  [("components", "components"), ("hooks", "hooks"), ("services", "helper"),
   ("screens", "screens"), ("themes", "theme")]

/-- The copilot variant's category table: `services` is backed by the
`services` folder. -/
def categoriesCopilot : List (String × String) :=
  [("components", "components"), ("hooks", "hooks"), ("services", "services"),
   ("screens", "screens"), ("themes", "theme")]

/-- stdio `listAvailableExamples`. -/
def listAvailableExamples (fs : FS) : Examples :=
  { components := listCat fs "components"
    hooks := listCat fs "hooks"
    services := listCat fs "helper"
    screens := listCat fs "screens"
    themes := listCat fs "theme" }

/-- copilot `listAvailableExamples` when no enumeration error occurs. -/
def listAvailableExamplesCopilot (fs : FS) : Examples :=
  { components := listCatDedup fs "components"
    hooks := listCatDedup fs "hooks"
    services := listCatDedup fs "services"
    screens := listCatDedup fs "screens"
    themes := listCatDedup fs "theme" }

/-- `examples[key]` read access. -/
def getField (ex : Examples) (k : String) : List String :=
  if k = "components" then ex.components
  else if k = "hooks" then ex.hooks
  else if k = "services" then ex.services
  else if k = "screens" then ex.screens
  else if k = "themes" then ex.themes
  else []

/-- `examples[key] := v` update. -/
def setField (ex : Examples) (k : String) (v : List String) : Examples :=
  if k = "components" then { ex with components := v }
  else if k = "hooks" then { ex with hooks := v }
  else if k = "services" then { ex with services := v }
  else if k = "screens" then { ex with screens := v }
  else if k = "themes" then { ex with themes := v }
  else ex

/-- The key/value pairs of the `examples` object in JS insertion order,
as serialized by `JSON.stringify`. -/
def toPairs (ex : Examples) : List (String × List String) :=
  [("components", ex.components), ("hooks", ex.hooks), ("services", ex.services),
   ("screens", ex.screens), ("themes", ex.themes)]

/-- The five category keys in declaration order. -/
def catKeys : List String :=
  ["components", "hooks", "services", "screens", "themes"]

/-- The copilot builder's category walk in the presence of enumeration
failures: directories listed in `failing` throw when walked, and the
handler's `catch` returns the `examples` object as filled so far. -/
def copilotWalk (fs : FS) (failing : List String) :
    List (String × String) → Examples → Examples
  | [], ex => ex
  | (k, d) :: rest, ex =>
    if failing.contains d then ex
    else copilotWalk fs failing rest (setField ex k (listCatDedup fs d))

/-- copilot `listAvailableExamples` with possible mid-walk enumeration
failures. -/
def listCopilotWithFailures (fs : FS) (failing : List String) : Examples :=
  copilotWalk fs failing categoriesCopilot emptyExamples

/-- Delete one directory from a snapshot. -/
def removeDir (fs : FS) (d : String) : FS :=
  ⟨fs.dirs.filter fun p => p.1 != d⟩

/-- A tool request to the stdio server (the tools backed by the resolver
and the catalog builder). -/
inductive Request where
  | listAll
  | getComponent (name : String)
  | getHook (name : String)
  | getService (name : String)
  | getScreen (name : String)
  | getTheme (name : String)
  deriving DecidableEq

/-- A tool reply. -/
inductive Response where
  | listing (ex : Examples)
  | resolved (r : ResolveOutcome)
  deriving DecidableEq

/-- The stdio server's per-request behavior: every handler re-walks the
snapshot; no state survives a request. -/
def handle (fs : FS) : Request → Response
  | .listAll => .listing (listAvailableExamples fs)
  | .getComponent n => .resolved (resolveStdio fs "components" n)
  | .getHook n => .resolved (resolveStdio fs "hooks" n)
  | .getService n => .resolved (resolveStdio fs "helper" n)
  | .getScreen n => .resolved (resolveStdio fs "screens" n)
  | .getTheme n => .resolved (resolveStdio fs "theme" n)

/-- A whole session: the replies to a request sequence against one
snapshot. -/
def runTrace (fs : FS) (rs : List Request) : List Response :=
  rs.map (handle fs)

/-! Concrete snapshots used as witnesses and counterexamples. -/

/-- A `hooks` root holding a single `useForm.ts`. -/
def fsHook : FS := ⟨[("hooks", [⟨["useForm.ts"], "HOOK"⟩])]⟩

/-- A `components` root holding a single `Button.tsx`. -/
def fsBtn : FS := ⟨[("components", [⟨["Button.tsx"], "BTN"⟩])]⟩

/-- A `components` root holding `a.tsx` and `a.tsx.js`: the stem of the
second file names the first. -/
def fsStemClash : FS :=
  ⟨[("components", [⟨["a.tsx"], "A"⟩, ⟨["a.tsx.js"], "B"⟩])]⟩

/-- A `components` root holding a single `LoginForm.tsx`. -/
def fsLogin : FS := ⟨[("components", [⟨["LoginForm.tsx"], "LF"⟩])]⟩

/-- A `hooks` root holding `useForm.js` and `useForm.ts`: two files with
the same stem. -/
def fsDup : FS :=
  ⟨[("hooks", [⟨["useForm.js"], "J"⟩, ⟨["useForm.ts"], "T"⟩])]⟩

/-- A snapshot whose only root is `helper`, holding `apiService.js`. -/
def fsHelp : FS := ⟨[("helper", [⟨["apiService.js"], "S"⟩])]⟩

/-- A snapshot whose only root is `services`, holding `apiService.js`. -/
def fsServ : FS := ⟨[("services", [⟨["apiService.js"], "S"⟩])]⟩

/-- A `components` root holding `Card.tsx` and `Card.tsx.js`. -/
def fsShadow : FS :=
  ⟨[("components", [⟨["Card.tsx"], "A1"⟩, ⟨["Card.tsx.js"], "B1"⟩])]⟩

/-- Roots for `components` and `hooks` only, one file each. -/
def fsTwoCats : FS :=
  ⟨[("components", [⟨["App.js"], "a"⟩]), ("hooks", [⟨["useAuth.js"], "b"⟩])]⟩

/-! Helper lemmas. -/

/-- Glob metacharacters of minimatch (including brace expansion, extglob
and escape characters), plus the path separator. -/
def isGlobMeta (c : Char) : Bool :=
  c ∈ ['*', '?', '[', ']', '{', '}', '(', ')', '!', '+', '@', '|', '\\', '/']

theorem lexGlob_of_noMeta {cs : List Char} (h : ∀ c ∈ cs, isGlobMeta c = false) :
    lexGlob cs = cs.map GTok.lit := by
  induction cs with
  | nil => rfl
  | cons c cs ih =>
    have hc := h c (List.mem_cons_self ..)
    have hstar : ¬ c = '*' := by
      intro hEq; subst hEq; simp [isGlobMeta] at hc
    have hq : ¬ c = '?' := by
      intro hEq; subst hEq; simp [isGlobMeta] at hc
    simp only [lexGlob, List.map_cons, if_neg hstar, if_neg hq]
    have := ih fun d hd => h d (List.mem_cons_of_mem _ hd)
    simpa [lexGlob] using this

theorem gmatch_lits (l : List Char) : ∀ s, gmatch (l.map GTok.lit) s = true ↔ s = l := by
  induction l with
  | nil => intro s; cases s <;> simp [gmatch]
  | cons c cs ih =>
    intro s
    cases s with
    | nil => simp [gmatch]
    | cons d ds =>
      simp only [List.map_cons, gmatch, Bool.and_eq_true, beq_iff_eq, ih ds,
        List.cons.injEq]
      constructor
      · rintro ⟨rfl, rfl⟩; exact ⟨rfl, rfl⟩
      · rintro ⟨rfl, rfl⟩; exact ⟨rfl, rfl⟩

theorem segMatch_literal {pat : String} (h : ∀ c ∈ pat.data, isGlobMeta c = false)
    (s : String) : segMatch pat s = true ↔ s = pat := by
  have hlex : lexGlob pat.data = pat.data.map GTok.lit := lexGlob_of_noMeta h
  unfold segMatch
  split
  · next hdot =>
    simp only [Bool.false_eq_true, false_iff]
    intro hEq
    subst hEq
    exact hdot.2 hdot.1
  · next =>
    rw [hlex, gmatch_lits]
    exact ⟨fun hEq => String.ext hEq, fun hEq => by rw [hEq]⟩

theorem findWithExt_eq_findSome (fs : FS) (d n : String) :
    ∀ exts, findWithExt fs d n exts
      = exts.findSome? fun ext => (globSync fs d (n ++ ext)).head? := by
  intro exts
  induction exts with
  | nil => rfl
  | cons ext rest ih =>
    simp only [findWithExt, List.findSome?_cons]
    cases globSync fs d (n ++ ext) with
    | nil => simpa using ih
    | cons f fsr => rfl

theorem lookupDir_removeDir_self (fs : FS) (d : String) :
    lookupDir d (removeDir fs d).dirs = none := by
  show lookupDir d (fs.dirs.filter fun p => p.1 != d) = none
  induction fs.dirs with
  | nil => rfl
  | cons p rest ih =>
    obtain ⟨k, es⟩ := p
    by_cases hp : k = d
    · subst hp
      simpa [List.filter_cons] using ih
    · have hb : (k != d) = true := by simpa using hp
      simpa [List.filter_cons, hb, lookupDir, hp] using ih

theorem lookupDir_removeDir_ne (fs : FS) {d d' : String} (h : d' ≠ d) :
    lookupDir d' (removeDir fs d).dirs = lookupDir d' fs.dirs := by
  show lookupDir d' (fs.dirs.filter fun p => p.1 != d) = lookupDir d' fs.dirs
  induction fs.dirs with
  | nil => rfl
  | cons p rest ih =>
    obtain ⟨k, es⟩ := p
    by_cases hp : k = d
    · have hb : (k != d) = false := by simpa using hp
      have hk : ¬ (k = d') := fun hEq => h (hEq ▸ hp)
      simpa [List.filter_cons, hb, lookupDir, hk] using ih
    · have hb : (k != d) = true := by simpa using hp
      by_cases hk' : k = d'
      · subst hk'
        simp [List.filter_cons, hb, lookupDir]
      · simpa [List.filter_cons, hb, lookupDir, hk'] using ih

theorem listCat_removeDir_self (fs : FS) (d : String) :
    listCat (removeDir fs d) d = [] := by
  unfold listCat dirExists
  rw [lookupDir_removeDir_self]
  rfl

theorem listCat_removeDir_ne (fs : FS) {d d' : String} (h : d' ≠ d) :
    listCat (removeDir fs d) d' = listCat fs d' := by
  unfold listCat dirExists globSync entriesOf
  rw [lookupDir_removeDir_ne fs h]

theorem listCatDedup_removeDir_self (fs : FS) (d : String) :
    listCatDedup (removeDir fs d) d = [] := by
  unfold listCatDedup dirExists
  rw [lookupDir_removeDir_self]
  rfl

theorem listCatDedup_removeDir_ne (fs : FS) {d d' : String} (h : d' ≠ d) :
    listCatDedup (removeDir fs d) d' = listCatDedup fs d' := by
  unfold listCatDedup dirExists globSync entriesOf
  rw [lookupDir_removeDir_ne fs h]

theorem nodup_foldl_pushNew : ∀ (l acc : List String), acc.Nodup →
    (l.foldl pushNew acc).Nodup := by
  intro l
  induction l with
  | nil => intro acc h; exact h
  | cons x xs ih =>
    intro acc h
    simp only [List.foldl_cons]
    apply ih
    unfold pushNew
    split
    · exact h
    · next hc =>
      have hx : x ∉ acc := by
        intro hmem
        exact hc (by simpa using hmem)
      simp [List.nodup_append, h, hx]

theorem firstStemMatch_none (q : String) :
    ∀ es : List Entry, (∀ e ∈ es, containsLower (stemOf (fileNameOf e)) q = false) →
    firstStemMatch q es = none := by
  intro es
  induction es with
  | nil => intro _; rfl
  | cons e es ih =>
    intro h
    have h0 := h e (List.mem_cons_self ..)
    simp only [firstStemMatch, h0, Bool.false_eq_true, if_false]
    exact ih fun e' he' => h e' (List.mem_cons_of_mem _ he')

theorem firstStemMatch_some (q : String) :
    ∀ (es : List Entry) (stem : String), firstStemMatch q es = some stem →
      containsLower stem q = true ∧ ∃ e ∈ es, stemOf (fileNameOf e) = stem := by
  intro es
  induction es with
  | nil => intro stem h; cases h
  | cons e es ih =>
    intro stem h
    simp only [firstStemMatch] at h
    by_cases h0 : containsLower (stemOf (fileNameOf e)) q = true
    · rw [if_pos h0] at h
      cases h
      exact ⟨h0, e, List.mem_cons_self .., rfl⟩
    · rw [if_neg h0] at h
      obtain ⟨h1, e', he', h2⟩ := ih stem h
      exact ⟨h1, e', List.mem_cons_of_mem _ he', h2⟩

theorem firstStemMatch_finds (q : String) :
    ∀ es : List Entry, (∃ e ∈ es, containsLower (stemOf (fileNameOf e)) q = true) →
    ∃ stem, firstStemMatch q es = some stem := by
  intro es
  induction es with
  | nil => rintro ⟨e, he, _⟩; exact absurd he (List.not_mem_nil e)
  | cons e es ih =>
    rintro ⟨e', he', hc⟩
    by_cases h0 : containsLower (stemOf (fileNameOf e)) q = true
    · exact ⟨stemOf (fileNameOf e), by simp [firstStemMatch, h0]⟩
    · have h0' : containsLower (stemOf (fileNameOf e)) q = false := by
        simpa using h0
      have he'' : e' ∈ es := by
        rcases List.mem_cons.mp he' with hEq | hmem
        · exact absurd (hEq ▸ hc) h0
        · exact hmem
      obtain ⟨stem, h1⟩ := ih ⟨e', he'', hc⟩
      exact ⟨stem, by simp [firstStemMatch, h0', h1]⟩

theorem fuzzyLoop_none (fs : FS) (dir q : String) :
    ∀ exts, (∀ ext ∈ exts, ∀ e ∈ globSync fs dir ("*" ++ ext),
        containsLower (stemOf (fileNameOf e)) q = false) →
    fuzzyLoop fs dir q exts = none := by
  intro exts
  induction exts with
  | nil => intro _; rfl
  | cons ext rest ih =>
    intro h
    unfold fuzzyLoop
    rw [firstStemMatch_none q _ (h ext (List.mem_cons_self ..))]
    exact ih fun ext' hext' => h ext' (List.mem_cons_of_mem _ hext')

theorem fuzzyLoop_finds (fs : FS) (dir q : String) :
    ∀ exts, (∃ ext ∈ exts, ∃ e ∈ globSync fs dir ("*" ++ ext),
        containsLower (stemOf (fileNameOf e)) q = true) →
    ∃ stem, fuzzyLoop fs dir q exts = some stem ∧ containsLower stem q = true
      ∧ ∃ ext ∈ exts, ∃ e ∈ globSync fs dir ("*" ++ ext),
          stemOf (fileNameOf e) = stem := by
  intro exts
  induction exts with
  | nil => rintro ⟨ext, hext, _⟩; exact absurd hext (List.not_mem_nil ext)
  | cons ext rest ih =>
    rintro ⟨ext', hext', e', he', hc⟩
    unfold fuzzyLoop
    cases hfirst : firstStemMatch q (globSync fs dir ("*" ++ ext)) with
    | some stem =>
      obtain ⟨h2, e'', he2, h3⟩ := firstStemMatch_some q _ stem hfirst
      exact ⟨stem, rfl, h2, ext, List.mem_cons_self .., e'', he2, h3⟩
    | none =>
      have hrest : ext' ∈ rest := by
        rcases List.mem_cons.mp hext' with hEq | hmem
        · subst hEq
          exfalso
          obtain ⟨stem, h1⟩ := firstStemMatch_finds q _ ⟨e', he', hc⟩
          rw [hfirst] at h1
          cases h1
        · exact hmem
      obtain ⟨stem, h1, h2, ext'', hext2, rest2⟩ := ih ⟨ext', hrest, e', he', hc⟩
      exact ⟨stem, h1, h2, ext'', List.mem_cons_of_mem _ hext2, rest2⟩

theorem segMatch_eq_beq {name : String} (h : ∀ c ∈ name.data, isGlobMeta c = false)
    (s : String) : segMatch name s = (s == name) := by
  have hiff := segMatch_literal h s
  by_cases hs : s = name
  · have h1 : segMatch name s = true := hiff.mpr hs
    rw [h1, hs]
    simp
  · have h1 : segMatch name s = false := by
      cases hsm : segMatch name s
      · rfl
      · exact absurd (hiff.mp hsm) hs
    rw [h1]
    simp [hs]

/-! Claim theorems. -/

/-- C1: `resolve` applies its three strategies in fixed order with first
success winning: the exact-filename recursive glob first; if it is empty,
the extension-qualified search over `.js`, `.jsx`, `.ts`, `.tsx` in list
order returning on the first extension with any match; and the fuzzy
substring fallback only when both previous stages found nothing. -/
theorem claim1_resolution_order (fs : FS) (dir name : String) :
    (∀ e rest, globSync fs dir name = e :: rest →
      findFileInSubdirectories fs dir name = some e)
    ∧ (globSync fs dir name = [] →
      findFileInSubdirectories fs dir name
        = extensions.findSome? fun ext => (globSync fs dir (name ++ ext)).head?)
    ∧ (∀ e, findFileInSubdirectories fs dir name = some e →
      resolveStdio fs dir name = .exact e.content)
    ∧ (findFileInSubdirectories fs dir name = none →
      resolveStdio fs dir name = fuzzyStage fs dir name) := by
  refine ⟨?_, ?_, ?_, ?_⟩
  · intro e rest h
    unfold findFileInSubdirectories
    rw [h]
  · intro h
    unfold findFileInSubdirectories
    rw [h]
    exact findWithExt_eq_findSome fs dir name extensions
  · intro e h
    unfold resolveStdio getExampleContent
    rw [h]
  · intro h
    unfold resolveStdio fuzzyStage getExampleContent
    rw [h]

/-- Witness for C1 at concrete snapshots: an exact glob hit wins, and an
input missed by the first two stages is handed to the fuzzy stage. -/
theorem claim1_witness :
    findFileInSubdirectories fsHook "hooks" "useForm.ts" = some ⟨["useForm.ts"], "HOOK"⟩
    ∧ resolveStdio fsHook "hooks" "form" = fuzzyStage fsHook "hooks" "form" :=
  ⟨(claim1_resolution_order fsHook "hooks" "useForm.ts").1 ⟨["useForm.ts"], "HOOK"⟩ []
      (by decide),
   (claim1_resolution_order fsHook "hooks" "form").2.2.2 (by decide)⟩

/-- Counterexample to C2 as stated: the exact-name stage feeds the
caller's string into a glob pattern, so for `itemName = "*"` it matches
`Button.tsx`, a file whose name is not `"*"`, and `resolve` returns that
file's content. -/
theorem claim2_counterexample :
    globSync fsBtn "components" "*" = [⟨["Button.tsx"], "BTN"⟩]
    ∧ fileNameOf ⟨["Button.tsx"], "BTN"⟩ ≠ "*"
    ∧ resolveStdio fsBtn "components" "*" = .exact "BTN" := by decide

/-- C2 (amended): for itemName free of glob metacharacters, the
exact-name stage matches precisely the files outside dot-directories
whose full filename equals itemName verbatim, and when such a file
exists `resolve` returns the first one's content verbatim, with its
relative path. -/
theorem claim2_exact_verbatim (fs : FS) (dir name : String)
    (hmeta : ∀ c ∈ name.data, isGlobMeta c = false) (_hne : name ≠ "") :
    globSync fs dir name
      = (entriesOf fs dir).filter
          (fun e => !e.segs.isEmpty && visibleDirs e && fileNameOf e == name)
    ∧ ∀ e rest, globSync fs dir name = e :: rest →
        resolveStdio fs dir name = .exact e.content
        ∧ getExampleContent fs dir name = .ok e.content (relPathOf dir e) := by
  constructor
  · unfold globSync
    apply List.filter_congr
    intro e _
    unfold entryMatches
    rw [segMatch_eq_beq hmeta]
  · intro e rest h
    have hfind : findFileInSubdirectories fs dir name = some e := by
      unfold findFileInSubdirectories
      rw [h]
    have hget : getExampleContent fs dir name = .ok e.content (relPathOf dir e) := by
      unfold getExampleContent
      rw [hfind]
    refine ⟨?_, hget⟩
    unfold resolveStdio
    rw [hget]

/-- Witness for C2 at a concrete snapshot: `Button.tsx` resolves to its
own content. -/
theorem claim2_witness :
    resolveStdio fsBtn "components" "Button.tsx" = .exact "BTN" :=
  ((claim2_exact_verbatim fsBtn "components" "Button.tsx" (by decide) (by decide)).2
      ⟨["Button.tsx"], "BTN"⟩ [] (by decide)).1

/-- C4: the two catalog builders disagree on duplicate stems: the stdio
variant lists a stem once per file, the copilot variant guards against
duplicates, so its per-category lists never contain one twice; on a
`hooks` root holding `useForm.js` and `useForm.ts` the two builders
produce different catalogs. -/
theorem claim4_dedup_divergence :
    (∀ (fs : FS) (d : String), (listCatDedup fs d).Nodup)
    ∧ (listAvailableExamples fsDup).hooks = ["useForm", "useForm"]
    ∧ (listAvailableExamplesCopilot fsDup).hooks = ["useForm"]
    ∧ listAvailableExamples fsDup ≠ listAvailableExamplesCopilot fsDup := by
  refine ⟨?_, by decide, by decide, by decide⟩
  intro fs d
  unfold listCatDedup
  split
  · exact nodup_foldl_pushNew _ [] List.nodup_nil
  · exact List.nodup_nil

/-- C5: the variants disagree on the directory backing `services`: the
stdio variant resolves service examples and builds the services catalog
from the `helper` folder, the copilot variant from the `services`
folder, so a file present only under one of the two folders is found by
exactly one variant. -/
theorem claim5_services_dir_divergence :
    ((listAvailableExamples fsHelp).services = ["apiService"]
      ∧ get_service_example_stdio fsHelp "apiService" = .exact "S"
      ∧ (listAvailableExamplesCopilot fsHelp).services = []
      ∧ get_service_example_copilot fsHelp "apiService"
          = .notFound "services" "apiService")
    ∧ ((listAvailableExamples fsServ).services = []
      ∧ get_service_example_stdio fsServ "apiService"
          = .notFound "helper" "apiService"
      ∧ (listAvailableExamplesCopilot fsServ).services = ["apiService"]
      ∧ get_service_example_copilot fsServ "apiService" = .exact "S") := by decide

/-- Counterexample to C3 as stated: with `a.tsx` and `a.tsx.js` present
and query `tsx`, the fuzzy stage matches `a.tsx.js` (content `B`, the
only file whose stem contains the query), yet the handler re-resolves
the stem `a.tsx` and returns the content `A` of the file `a.tsx`, whose
stem `a` does not contain the query — so `resolve` does not return one
of the matching files. -/
theorem claim3_counterexample :
    findFileInSubdirectories fsStemClash "components" "tsx" = none
    ∧ resolveStdio fsStemClash "components" "tsx" = .fuzzy "A"
    ∧ (∀ e ∈ entriesOf fsStemClash "components",
        containsLower (stemOf (fileNameOf e)) "tsx" = true → e.content = "B")
    ∧ ("A" : String) ≠ "B" := by decide

/-- C3 (amended): when the exact and extension-qualified stages fail but
some file with a recognized extension has a lowercased stem containing
the lowercased query, the fuzzy stage succeeds with the stem of the
first such file in extension-list then traversal order (the containment
check being asymmetric and unranked), and the handler replies from the
re-resolution of that stem — content possibly taken from a different
file, or the re-resolution's error text. -/
theorem claim3_fuzzy_finds (fs : FS) (dir q : String)
    (hnone : findFileInSubdirectories fs dir q = none)
    (hsome : ∃ ext ∈ extensions, ∃ e ∈ globSync fs dir ("*" ++ ext),
        containsLower (stemOf (fileNameOf e)) q = true) :
    ∃ stem, findClosestMatch fs dir q = some stem
      ∧ containsLower stem q = true
      ∧ (∃ ext ∈ extensions, ∃ e ∈ globSync fs dir ("*" ++ ext),
          stemOf (fileNameOf e) = stem)
      ∧ ((∃ c, resolveStdio fs dir q = .fuzzy c)
          ∨ ∃ m, resolveStdio fs dir q = .fuzzyError m) := by
  have hdir : dirExists fs dir = true := by
    obtain ⟨ext, _hx, e, he, _hc⟩ := hsome
    unfold dirExists
    cases hlk : lookupDir dir fs.dirs with
    | some es => rfl
    | none =>
      exfalso
      unfold globSync entriesOf at he
      rw [hlk] at he
      simp at he
  obtain ⟨stem, h1, h2, h3⟩ := fuzzyLoop_finds fs dir q extensions hsome
  have hclose : findClosestMatch fs dir q = some stem := by
    unfold findClosestMatch
    rw [if_pos hdir]
    exact h1
  refine ⟨stem, hclose, h2, h3, ?_⟩
  have herr : getExampleContent fs dir q = .error ("Example " ++ q ++ " not found") := by
    unfold getExampleContent
    rw [hnone]
  have hstep : resolveStdio fs dir q
      = (match getExampleContent fs dir stem with
         | .ok c _ => .fuzzy c
         | .error m => .fuzzyError m) := by
    unfold resolveStdio
    rw [herr, hclose]
  cases hres : getExampleContent fs dir stem with
  | ok c p =>
    left
    exact ⟨c, by rw [hstep, hres]⟩
  | error m =>
    right
    exact ⟨m, by rw [hstep, hres]⟩

/-- Witness for C3 at a concrete snapshot: query `form` against a root
holding only `LoginForm.tsx`. -/
theorem claim3_witness :
    ∃ stem, findClosestMatch fsLogin "components" "form" = some stem
      ∧ containsLower stem "form" = true
      ∧ (∃ ext ∈ extensions, ∃ e ∈ globSync fsLogin "components" ("*" ++ ext),
          stemOf (fileNameOf e) = stem)
      ∧ ((∃ c, resolveStdio fsLogin "components" "form" = .fuzzy c)
          ∨ ∃ m, resolveStdio fsLogin "components" "form" = .fuzzyError m) :=
  claim3_fuzzy_finds fsLogin "components" "form" (by decide) (by decide)

/-- C6: when no file matches any of the three strategies, both handler
variants reply with the not-found outcome carrying the category
directory and the attempted name; resolution is total and returns no
content. -/
theorem claim6_notfound (fs : FS) (dir name : String)
    (hexact : globSync fs dir name = [])
    (hext : ∀ ext ∈ extensions, globSync fs dir (name ++ ext) = [])
    (hfuzzy : ∀ ext ∈ extensions, ∀ e ∈ globSync fs dir ("*" ++ ext),
        containsLower (stemOf (fileNameOf e)) name = false) :
    resolveStdio fs dir name = .notFound dir name
    ∧ resolveCopilot fs dir name = .notFound dir name := by
  have hfind : findFileInSubdirectories fs dir name = none := by
    unfold findFileInSubdirectories
    rw [hexact, findWithExt_eq_findSome]
    rw [List.findSome?_eq_none_iff]
    intro ext hmem
    rw [hext ext hmem]
    rfl
  have hclose : findClosestMatch fs dir name = none := by
    unfold findClosestMatch
    split
    · exact fuzzyLoop_none fs dir name extensions hfuzzy
    · rfl
  constructor
  · unfold resolveStdio getExampleContent
    rw [hfind, hclose]
  · unfold resolveCopilot getExampleContent
    rw [hfind, hclose]

/-- Witness for C6: an empty snapshot and the name `Nope`. -/
theorem claim6_witness :
    resolveStdio (⟨[]⟩ : FS) "components" "Nope" = .notFound "components" "Nope"
    ∧ resolveCopilot (⟨[]⟩ : FS) "components" "Nope" = .notFound "components" "Nope" :=
  claim6_notfound ⟨[]⟩ "components" "Nope" (by decide) (by decide) (by decide)

theorem listCat_removeDir (fs : FS) (d d' : String) :
    listCat (removeDir fs d) d' = if d = d' then [] else listCat fs d' := by
  by_cases hd : d = d'
  · subst hd
    simp [listCat_removeDir_self]
  · rw [if_neg hd]
    exact listCat_removeDir_ne fs fun hEq => hd hEq.symm

theorem listCatDedup_removeDir (fs : FS) (d d' : String) :
    listCatDedup (removeDir fs d) d' = if d = d' then [] else listCatDedup fs d' := by
  by_cases hd : d = d'
  · subst hd
    simp [listCatDedup_removeDir_self]
  · rw [if_neg hd]
    exact listCatDedup_removeDir_ne fs fun hEq => hd hEq.symm

/-- C7: a category whose root directory does not exist contributes an
empty list, not an error; and deleting any one directory from the
snapshot empties exactly the categories that directory backs and leaves
every other category's listing unchanged, in both variants. -/
theorem claim7_fault_isolation (fs : FS) (d : String) :
    (dirExists fs d = false → listCat fs d = [] ∧ listCatDedup fs d = [])
    ∧ listAvailableExamples (removeDir fs d)
        = { components := if d = "components" then [] else listCat fs "components"
            hooks := if d = "hooks" then [] else listCat fs "hooks"
            services := if d = "helper" then [] else listCat fs "helper"
            screens := if d = "screens" then [] else listCat fs "screens"
            themes := if d = "theme" then [] else listCat fs "theme" }
    ∧ listAvailableExamplesCopilot (removeDir fs d)
        = { components := if d = "components" then [] else listCatDedup fs "components"
            hooks := if d = "hooks" then [] else listCatDedup fs "hooks"
            services := if d = "services" then [] else listCatDedup fs "services"
            screens := if d = "screens" then [] else listCatDedup fs "screens"
            themes := if d = "theme" then [] else listCatDedup fs "theme" } := by
  refine ⟨?_, ?_, ?_⟩
  · intro h
    constructor
    · simp [listCat, h]
    · simp [listCatDedup, h]
  · unfold listAvailableExamples
    rw [listCat_removeDir, listCat_removeDir, listCat_removeDir, listCat_removeDir,
      listCat_removeDir]
  · unfold listAvailableExamplesCopilot
    rw [listCatDedup_removeDir, listCatDedup_removeDir, listCatDedup_removeDir,
      listCatDedup_removeDir, listCatDedup_removeDir]

/-- Witness for C7: `fsTwoCats` has no `theme` root, so the themes
category contributes an empty list. -/
theorem claim7_witness :
    listCat fsTwoCats "theme" = [] ∧ listCatDedup fsTwoCats "theme" = [] :=
  (claim7_fault_isolation fsTwoCats "theme").1 (by decide)

/-- C8 (implicit behavior): when resolution falls back to fuzzy
matching, only the extension-stripped stem is kept and re-resolved
through the exact and extension-qualified stages, so the content
returned can come from a different file than the one whose stem
produced the fuzzy match; concretely, with `Card.tsx` and `Card.tsx.js`
present, query `card` fuzzy-matches `Card.tsx.js` (content `B1`) but
the reply carries the content `A1` of `Card.tsx`. -/
theorem claim8_fuzzy_reresolution :
    (∀ (fs : FS) (dir name stem : String),
      findFileInSubdirectories fs dir name = none →
      findClosestMatch fs dir name = some stem →
      resolveStdio fs dir name
        = match getExampleContent fs dir stem with
          | .ok c _ => .fuzzy c
          | .error m => .fuzzyError m)
    ∧ findClosestMatch fsShadow "components" "card" = some "Card.tsx"
    ∧ stemOf (fileNameOf (⟨["Card.tsx.js"], "B1"⟩ : Entry)) = "Card.tsx"
    ∧ resolveStdio fsShadow "components" "card" = .fuzzy "A1"
    ∧ ("A1" : String) ≠ "B1" := by
  refine ⟨?_, by decide, by decide, by decide, by decide⟩
  intro fs dir name stem hfind hclose
  unfold resolveStdio getExampleContent
  rw [hfind, hclose]

/-- Witness for C8: the general re-resolution equation applied to the
`Card.tsx` / `Card.tsx.js` snapshot. -/
theorem claim8_witness :
    resolveStdio fsShadow "components" "card"
      = match getExampleContent fsShadow "components" "Card.tsx" with
        | .ok c _ => .fuzzy c
        | .error m => .fuzzyError m :=
  claim8_fuzzy_reresolution.1 fsShadow "components" "card" "Card.tsx"
    (by decide) (by decide)

/-- C9: against a fixed snapshot, the listing reply is a pure function
of the directory tree: wherever two list requests occur in a request
trace, and whatever other requests surround them, both receive the same
`listAvailableExamples` reply. -/
theorem claim9_list_deterministic (fs : FS) (pre mid : List Request) :
    runTrace fs (pre ++ Request.listAll :: (mid ++ [Request.listAll]))
      = runTrace fs pre
        ++ Response.listing (listAvailableExamples fs)
          :: (runTrace fs mid ++ [Response.listing (listAvailableExamples fs)]) := by
  simp [runTrace, handle]

/-- C10: both builders always produce an object with exactly the five
category keys in declaration order; an all-missing tree yields five
empty lists; and a mid-walk enumeration failure in the copilot variant
still returns the object as filled so far (categories walked before the
failure populated, the rest as initialized) instead of propagating. -/
theorem claim10_catalog_shape :
    (∀ (fs : FS) (failing : List String),
      (toPairs (listAvailableExamples fs)).map Prod.fst = catKeys
      ∧ (toPairs (listAvailableExamplesCopilot fs)).map Prod.fst = catKeys
      ∧ (toPairs (listCopilotWithFailures fs failing)).map Prod.fst = catKeys
      ∧ (fs.dirs = [] → listAvailableExamples fs = emptyExamples
          ∧ listAvailableExamplesCopilot fs = emptyExamples)
      ∧ listCopilotWithFailures fs [] = listAvailableExamplesCopilot fs)
    ∧ listCopilotWithFailures fsTwoCats ["hooks"] = ⟨["App"], [], [], [], []⟩ := by
  refine ⟨?_, by decide⟩
  intro fs failing
  refine ⟨rfl, rfl, rfl, ?_, ?_⟩
  · intro h
    have h1 : ∀ d, lookupDir d fs.dirs = none := by
      intro d
      rw [h]
      rfl
    constructor
    · simp [listAvailableExamples, listCat, dirExists, h1, emptyExamples]
    · simp [listAvailableExamplesCopilot, listCatDedup, dirExists, h1, emptyExamples]
  · rfl

/-- Witness for C10: the empty snapshot yields five empty lists in both
variants. -/
theorem claim10_witness :
    listAvailableExamples (⟨[]⟩ : FS) = emptyExamples
    ∧ listAvailableExamplesCopilot (⟨[]⟩ : FS) = emptyExamples :=
  (claim10_catalog_shape.1 ⟨[]⟩ []).2.2.2.1 rfl

end McpResolver
